import Mathlib

/-!
Verification of the feebb finite-element Euler-Bernoulli beam library
(src/feebb/feebb.py) against its natural-language specification.

The Python source is shallowly embedded: numeric values become `ℚ`
(the source computes with exact closed-form rational expressions over
floats; no rounding behaviour is at issue in the claims), 4-entry local
vectors and 4x4 local matrices become functions `ℕ → ℚ` / `ℕ → ℕ → ℚ`
that are zero outside the index range, and Python code that can raise
(`fer_moment` returning `None`, `list.pop` on an empty list,
out-of-range list indexing, division by a zero length) is modelled in
`Option`.  `np.linalg.solve` is modelled relationally: `isSolution`
says a vector solves the assembled linear system.
-/

namespace Feebb

/-- A load dictionary from the JSON model: the source dispatches on the
`type` key with the parameters used by each `fer_*` method. -/
inductive Load where
  | udl (magnitude : ℚ)
  | point (magnitude location : ℚ)
  | patch (magnitude start stop : ℚ)
  | moment (magnitude location : ℚ)
deriving DecidableEq

/-- Whether a load has `type == 'moment'`. -/
def Load.isMoment : Load → Bool
  | .moment _ _ => true
  | _ => false

/-- Source method `Element.local_stiffness`: the 4x4 local stiffness matrix
`[[kfv, -kft, -kfv, -kft], [-kmv, kmt, kmv, kmth],
  [-kfv, kft, kfv, kft], [-kft, kmth, kft, kmt]]`. -/
def localStiffness (length E I : ℚ) : ℕ → ℕ → ℚ := fun r c =>
  let kfv := 12 * E * I / length ^ 3
  let kmv := 6 * E * I / length ^ 2
  let kft := kmv
  let kmt := 4 * E * I / length
  let kmth := 2 * E * I / length
  match r, c with
  | 0, 0 => kfv  | 0, 1 => -kft  | 0, 2 => -kfv | 0, 3 => -kft
  | 1, 0 => -kmv | 1, 1 => kmt   | 1, 2 => kmv  | 1, 3 => kmth
  | 2, 0 => -kfv | 2, 1 => kft   | 2, 2 => kfv  | 2, 3 => kft
  | 3, 0 => -kft | 3, 1 => kmth  | 3, 2 => kft  | 3, 3 => kmt
  | _, _ => 0

/-- Source method `Element.fer_point`: fixed-end reactions `[v[0], -m[0], v[1], m[1]]`
for a point load `p` at distance `a` from node i. -/
def fer_point (length p a : ℚ) : ℕ → ℚ := fun k =>
  let b := length - a
  match k with
  | 0 => p * b ^ 2 * (3 * a + b) / length ^ 3
  | 1 => -(p * a * b ^ 2 / length ^ 2)
  | 2 => p * a ^ 2 * (a + 3 * b) / length ^ 3
  | 3 => p * a ^ 2 * b / length ^ 2
  | _ => 0

/-- Source method `Element.fer_distrib`: fixed-end reactions `[v, -m, v, m]` for a
uniformly distributed load `w` over the full element. -/
def fer_distrib (length w : ℚ) : ℕ → ℚ := fun k =>
  match k with
  | 0 => w * length / 2
  | 1 => -(w * length ^ 2 / 12)
  | 2 => w * length / 2
  | 3 => w * length ^ 2 / 12
  | _ => 0

/-- Source method `Element.fer_patch`: fixed-end reactions for a uniform patch load
`w` between `start` and `stop` (`end` in the source). -/
def fer_patch (length w start stop : ℚ) : ℕ → ℚ := fun k =>
  let d := stop - start
  let a := start + d / 2
  let b := length - a
  match k with
  | 0 => (w * d) / length ^ 3 * ((2 * a + length) * b ^ 2 + (a - b) / 4 * d ^ 2)
  | 1 => -((w * d / length ^ 2) * (a * b ^ 2 + (a - 2 * b) * d ^ 2 / 12))
  | 2 => (w * d) / length ^ 3 * ((2 * b + length) * a ^ 2 + (a - b) / 4 * d ^ 2)
  | 3 => (w * d / length ^ 2) * (a ^ 2 * b + (b - 2 * a) * d ^ 2 / 12)
  | _ => 0

/-- Source method `Element.fer_moment`: the body is `pass`, so the call returns
`None`; there is no reaction vector to return. -/
def fer_moment (_length _m _a : ℚ) : Option (ℕ → ℚ) := none

/-- Source method `Element.load_vector`: starting from the current `nodal_loads`
accumulator, add the fixed-end reactions of every load in order.  The
`moment` branch computes `nodal_loads + fer_moment(...)`, i.e. adds
`None` to an array, which raises a `TypeError`: modelled by the `none`
propagating through the fold. -/
def loadVectorFrom (length : ℚ) (init : ℕ → ℚ) (loads : List Load) : Option (ℕ → ℚ) :=
  loads.foldlM
    (fun nl load =>
      match load with
      | .udl w => some (fun k => nl k + fer_distrib length w k)
      | .point p a => some (fun k => nl k + fer_point length p a k)
      | .patch w s e => some (fun k => nl k + fer_patch length w s e k)
      | .moment m a => (fer_moment length m a).map (fun f => fun k => nl k + f k))
    init

/-- An `Element` as built by `Element.__init__` from a preprocessed
dictionary: its data plus the derived `stiffness` and `nodal_loads`. -/
structure Element where
  length : ℚ
  E : ℚ
  I : ℚ
  loads : List Load
  stiffness : ℕ → ℕ → ℚ
  nodal_loads : ℕ → ℚ

/-- The preprocessed dictionary handed to `Element.__init__`
(keys `length`, `youngs_mod`, `moment_of_inertia`, `loads`). -/
structure ElementDesc where
  length : ℚ
  youngs_mod : ℚ
  moment_of_inertia : ℚ
  loads : List Load

/-- Source constructor `Element.__init__` with a preprocessed dictionary: it calls
`local_stiffness()` (which raises `ZeroDivisionError` iff
`length == 0`, since it divides by `length ** 3`; no other validation
exists) and then `load_vector()` (which raises iff a `moment` load is
present).  The accumulator starts from `np.zeros(4)`. -/
def elementInit (p : ElementDesc) : Option Element :=
  if p.length = 0 then none
  else
    (loadVectorFrom p.length (fun _ => 0) p.loads).map
      (fun nl =>
        ⟨p.length, p.youngs_mod, p.moment_of_inertia, p.loads,
         localStiffness p.length p.youngs_mod p.moment_of_inertia, nl⟩)

/-- Source attribute `Beam.num_dof = (len(elements) + 1) * 2`. -/
def numDof (elements : List Element) : ℕ := 2 * (elements.length + 1)

/-- Assembly loop for the global stiffness matrix: element `i`
contributes its 4x4 block on the index window `[2i, 2i+4)`. -/
def beamK (elements : List Element) : ℕ → ℕ → ℚ :=
  elements.enum.foldl
    (fun K ie => fun r c =>
      K r c +
        if 2 * ie.1 ≤ r ∧ r < 2 * ie.1 + 4 ∧ 2 * ie.1 ≤ c ∧ c < 2 * ie.1 + 4 then
          ie.2.stiffness (r - 2 * ie.1) (c - 2 * ie.1)
        else 0)
    (fun _ _ => 0)

/-- Assembly loop for the global load vector: element `i`'s
`nodal_loads` is subtracted on the window `[2i, 2i+4)`. -/
def beamF (elements : List Element) : ℕ → ℚ :=
  elements.enum.foldl
    (fun F ie => fun r =>
      F r -
        if 2 * ie.1 ≤ r ∧ r < 2 * ie.1 + 4 then ie.2.nodal_loads (r - 2 * ie.1)
        else 0)
    (fun _ => 0)

/-- One iteration of the boundary-condition loop at global DOF `i` with
support value `s`: a negative support zeroes row and column `i`, puts
`1` on the diagonal and zeroes the load entry; a positive support is
added to the diagonal; zero leaves everything unchanged. -/
def bcStep (KF : (ℕ → ℕ → ℚ) × (ℕ → ℚ)) (s : ℚ) (i : ℕ) : (ℕ → ℕ → ℚ) × (ℕ → ℚ) :=
  if s < 0 then
    (fun r c => if r = i ∧ c = i then 1 else if r = i ∨ c = i then 0 else KF.1 r c,
     fun r => if r = i then 0 else KF.2 r)
  else if 0 < s then
    (fun r c => if r = i ∧ c = i then KF.1 r c + s else KF.1 r c, KF.2)
  else KF

/-- The support loop `for i in range(num_dof)`: reading `supports[i]`
raises `IndexError` when `i` is out of range (modelled by `get?`
returning `none`). -/
def applyBC (supports : List ℚ) (D : ℕ) (KF : (ℕ → ℕ → ℚ) × (ℕ → ℚ)) :
    Option ((ℕ → ℕ → ℚ) × (ℕ → ℚ)) :=
  (List.range D).foldlM (fun KF i => (supports.get? i).map (fun s => bcStep KF s i)) KF

/-- Source constructor `Beam.__init__` up to (but not including) the linear solve:
assemble `stiffness` and `load`, then enforce the supports. -/
def beamBC (elements : List Element) (supports : List ℚ) :
    Option ((ℕ → ℕ → ℚ) × (ℕ → ℚ)) :=
  applyBC supports (numDof elements) (beamK elements, beamF elements)

/-- The call `np.linalg.solve(stiffness, load)` modelled relationally: `d`
solves the `D × D` system `K d = F`. -/
def isSolution (D : ℕ) (K : ℕ → ℕ → ℚ) (F : ℕ → ℚ) (d : ℕ → ℚ) : Prop :=
  ∀ i ∈ List.range D, ((List.range D).map (fun j => K i j * d j)).sum = F i

instance (D : ℕ) (K : ℕ → ℕ → ℚ) (F : ℕ → ℚ) (d : ℕ → ℚ) :
    Decidable (isSolution D K F d) := by
  unfold isSolution; infer_instance

/-- The `action` string passed to `Postprocessor.interp`. -/
inductive Action where
  | displacement
  | slope
  | moment
  | shear
deriving DecidableEq

/-- Source method `Postprocessor.__phi_displacment` (source spelling): the cubic
Hermite shape functions evaluated at `(x, a)`. -/
def phi_displacment (x a : ℚ) : ℕ → ℚ := fun k =>
  match k with
  | 0 => 1 - 3 * a ^ 2 + 2 * a ^ 3
  | 1 => -x * (1 - a) ^ 2
  | 2 => 3 * a ^ 2 - 2 * a ^ 3
  | 3 => -x * (a ^ 2 - a)
  | _ => 0

/-- Source method `Postprocessor.__phi_slope`.  `interp` computes it in the `slope`
branch and then discards it (the `points.extend` line is missing). -/
def phi_slope (length a : ℚ) : ℕ → ℚ := fun k =>
  match k with
  | 0 => -(6 / length) * a * (1 - a)
  | 1 => -(1 + 3 * a ^ 2 - 4 * a)
  | 2 => (6 / length) * a * (1 - a)
  | 3 => -a * (3 * a - 2)
  | _ => 0

/-- Source method `Postprocessor.__phi_moment`. -/
def phi_moment (length x : ℚ) : ℕ → ℚ := fun k =>
  match k with
  | 0 => (-6 / length ^ 2) * (1 - 2 * (x / length))
  | 1 => (-2 / length) * (3 * (x / length) - 2)
  | 2 => -((-6 / length ^ 2) * (1 - 2 * (x / length)))
  | 3 => (-2 / length) * (3 * (x / length) - 1)
  | _ => 0

/-- Source method `Postprocessor.__phi_shear` (constant in `x`). -/
def phi_shear (length : ℚ) : ℕ → ℚ := fun k =>
  match k with
  | 0 => 12 / length ^ 3
  | 1 => -6 / length ^ 2
  | 2 => -12 / length ^ 3
  | 3 => -6 / length ^ 2
  | _ => 0

/-- The call `np.linspace(0, length, n)`: `n` evenly spaced points including
both endpoints (`n ≤ 1` degenerates to copies of the start point). -/
def linspace (length : ℚ) (n : ℕ) : List ℚ :=
  if n ≤ 1 then List.replicate n 0
  else (List.range n).map (fun (j : ℕ) => length * (j : ℚ) / ((n : ℚ) - 1))

/-- One displacement sample of element `i`:
`np.sum(disp_nodes * phi, axis=0)` at abscissa `x`, where `disp_nodes`
is `displacement[2i : 2i+4]` and `a = x / length`. -/
def dispSample (d : ℕ → ℚ) (i : ℕ) (length x : ℚ) : ℚ :=
  ((List.range 4).map (fun k => d (2 * i + k) * phi_displacment x (x / length) k)).sum

/-- The samples element `i` appends to `points` for one `action`.  The
`slope` branch of `interp` computes `phi` but never extends `points`,
so it contributes nothing. -/
def elemContribution (d : ℕ → ℚ) (i : ℕ) (length E I : ℚ) (num_points : ℕ) :
    Action → List ℚ
  | .displacement => (linspace length num_points).map (fun x => dispSample d i length x)
  | .slope => []
  | .moment =>
      (linspace length num_points).map
        (fun x => E * I * ((List.range 4).map (fun k => d (2 * i + k) * phi_moment length x k)).sum)
  | .shear =>
      (linspace length num_points).map
        (fun _ => E * I * ((List.range 4).map (fun k => d (2 * i + k) * phi_shear length k)).sum)

/-- The call `points.pop(-1)`: drop the last entry; raises `IndexError` on an
empty list. -/
def popLast (l : List ℚ) : Option (List ℚ) :=
  if l = [] then none else some l.dropLast

/-- The loop of `Postprocessor.interp` over elements `0, ..., n-1`
with a given per-element contribution function. -/
def interpFold (contrib : ℕ → List ℚ) (n : ℕ) : Option (List ℚ) :=
  (List.range n).foldlM
    (fun points i =>
      (if i ≠ 0 then popLast points else some points).map (fun ps => ps ++ contrib i))
    []

/-- Source method `Postprocessor.interp(action)` over the stored per-element
`len_elements`, `E_elements`, `I_elements` lists and the solved
displacement vector. -/
def interp (lens Es Is : List ℚ) (d : ℕ → ℚ) (num_points : ℕ) (action : Action) :
    Option (List ℚ) :=
  interpFold
    (fun i => elemContribution d i (lens.getD i 0) (Es.getD i 0) (Is.getD i 0) num_points action)
    lens.length

/-- The method `interp` for a beam built from an element list (the `Beam` stores
`len_elements`, `E_elements`, `I_elements` as per-element lists). -/
def beamInterp (elements : List Element) (d : ℕ → ℚ) (num_points : ℕ) (action : Action) :
    Option (List ℚ) :=
  interp (elements.map Element.length) (elements.map Element.E) (elements.map Element.I)
    d num_points action

/-!
## Helper lemmas on the load-vector accumulation
-/

lemma loadVectorFrom_eq_none_iff (length : ℚ) (loads : List Load) :
    ∀ init, loadVectorFrom length init loads = none ↔ ∃ l ∈ loads, l.isMoment = true := by
  induction loads with
  | nil => intro init; simp [loadVectorFrom]
  | cons l ls ih =>
    intro init
    cases l with
    | udl w =>
      rw [show loadVectorFrom length init (Load.udl w :: ls) =
            loadVectorFrom length (fun k => init k + fer_distrib length w k) ls from rfl, ih]
      simp [Load.isMoment]
    | point p a =>
      rw [show loadVectorFrom length init (Load.point p a :: ls) =
            loadVectorFrom length (fun k => init k + fer_point length p a k) ls from rfl, ih]
      simp [Load.isMoment]
    | patch w s e =>
      rw [show loadVectorFrom length init (Load.patch w s e :: ls) =
            loadVectorFrom length (fun k => init k + fer_patch length w s e k) ls from rfl, ih]
      simp [Load.isMoment]
    | moment m a =>
      constructor
      · intro _
        exact ⟨Load.moment m a, by simp, rfl⟩
      · intro _
        rfl

lemma loadVectorFrom_shift (length : ℚ) (loads : List Load) :
    ∀ init, loadVectorFrom length init loads =
      (loadVectorFrom length (fun _ => 0) loads).map (fun v => fun k => init k + v k) := by
  induction loads with
  | nil =>
    intro init
    show some init = (some (fun _ : ℕ => (0 : ℚ))).map (fun v => fun k => init k + v k)
    simp
  | cons l ls ih =>
    intro init
    cases l with
    | udl w =>
      show loadVectorFrom length (fun k => init k + fer_distrib length w k) ls =
        (loadVectorFrom length (fun k => (0 : ℚ) + fer_distrib length w k) ls).map
          (fun v => fun k => init k + v k)
      rw [ih (fun k => init k + fer_distrib length w k),
        ih (fun k => (0 : ℚ) + fer_distrib length w k)]
      cases h : loadVectorFrom length (fun _ => 0) ls with
      | none => simp
      | some v =>
        simp only [Option.map_some']
        congr 1
        funext k
        ring
    | point p a =>
      show loadVectorFrom length (fun k => init k + fer_point length p a k) ls =
        (loadVectorFrom length (fun k => (0 : ℚ) + fer_point length p a k) ls).map
          (fun v => fun k => init k + v k)
      rw [ih (fun k => init k + fer_point length p a k),
        ih (fun k => (0 : ℚ) + fer_point length p a k)]
      cases h : loadVectorFrom length (fun _ => 0) ls with
      | none => simp
      | some v =>
        simp only [Option.map_some']
        congr 1
        funext k
        ring
    | patch w s e =>
      show loadVectorFrom length (fun k => init k + fer_patch length w s e k) ls =
        (loadVectorFrom length (fun k => (0 : ℚ) + fer_patch length w s e k) ls).map
          (fun v => fun k => init k + v k)
      rw [ih (fun k => init k + fer_patch length w s e k),
        ih (fun k => (0 : ℚ) + fer_patch length w s e k)]
      cases h : loadVectorFrom length (fun _ => 0) ls with
      | none => simp
      | some v =>
        simp only [Option.map_some']
        congr 1
        funext k
        ring
    | moment m a => rfl

/-!
## Claim C3: a moment load aborts the load-vector computation
-/

/-- C3 (counterexample): for a concrete element with a `moment` load,
`load_vector` does not succeed — `fer_moment` returns `None` and the
addition raises a `TypeError`, modelled by the computation returning
`none` rather than a zero-contribution vector. -/
theorem moment_load_vector_counterexample :
    (loadVectorFrom 1 (fun _ => 0) [Load.moment 5 (1/2)]).isSome = false := by
  decide

/-- C3 (amended): whenever the load list contains a load of kind
`moment`, `load_vector` fails (raises), for any element length and any
starting accumulator; the moment load never contributes zero. -/
theorem moment_load_vector_fails (length : ℚ) (init : ℕ → ℚ) (loads : List Load)
    (h : ∃ l ∈ loads, l.isMoment = true) :
    loadVectorFrom length init loads = none :=
  (loadVectorFrom_eq_none_iff length loads init).mpr h

/-- Witness for `moment_load_vector_fails` at a concrete input. -/
theorem moment_load_vector_fails_witness :
    (∃ l ∈ [Load.moment 5 (1/2)], l.isMoment = true) ∧
      loadVectorFrom 1 (fun _ => 0) [Load.moment 5 (1/2)] = none :=
  ⟨by decide, moment_load_vector_fails 1 (fun _ => 0) [Load.moment 5 (1/2)] (by decide)⟩

/-!
## Claim C9: no geometry validation in `Element.__init__`
-/

/-- C9 (counterexample): an element description with negative length
and non-positive modulus and inertia is accepted by `Element.__init__`
without any error — there is no `InvalidGeometry` check. -/
theorem element_invalid_geometry_counterexample :
    ((-1 : ℚ) ≤ 0 ∧ (-2 : ℚ) ≤ 0 ∧ (-3 : ℚ) ≤ 0) ∧
      (elementInit ⟨-1, -2, -3, []⟩).isSome = true :=
  ⟨by decide, by decide⟩

/-- C9 (amended): `Element.__init__` performs no geometry validation.
Construction fails exactly when the length is zero (a
`ZeroDivisionError` in `local_stiffness`) or a `moment` load is
present (a `TypeError` in `load_vector`); negative lengths and
non-positive `E` or `I` are accepted silently. -/
theorem elementInit_eq_none_iff (p : ElementDesc) :
    elementInit p = none ↔ p.length = 0 ∨ ∃ l ∈ p.loads, l.isMoment = true := by
  unfold elementInit
  by_cases h : p.length = 0
  · simp [h]
  · simp [h, loadVectorFrom_eq_none_iff]

/-!
## Claim C10: `load_vector` is not idempotent
-/

/-- C10: calling `load_vector` a second time after construction adds
every fixed-end reaction again: the accumulator starts from the
previous result `v` and ends at `v + v`, which differs from `v`
whenever some entry is nonzero. -/
theorem load_vector_not_idempotent (length : ℚ) (loads : List Load) (v : ℕ → ℚ) (k₀ : ℕ)
    (h1 : loadVectorFrom length (fun _ => 0) loads = some v) (h2 : v k₀ ≠ 0) :
    loadVectorFrom length v loads = some (fun k => v k + v k) ∧
      (fun k => v k + v k) ≠ v := by
  refine ⟨?_, ?_⟩
  · rw [loadVectorFrom_shift, h1]
    rfl
  · intro hEq
    have h3 := congrFun hEq k₀
    simp only at h3
    have h4 : v k₀ = 0 := by linarith
    exact h2 h4

/-- Witness for `load_vector_not_idempotent`: a unit element with a
single UDL of magnitude 2 has first load vector `[1, -1/6, 1, 1/6]`;
the second call doubles it. -/
theorem load_vector_not_idempotent_witness :
    loadVectorFrom 1 (fun _ => (0 : ℚ)) [Load.udl 2] =
        some (fun k => (0 : ℚ) + fer_distrib 1 2 k) ∧
      (fun k => (0 : ℚ) + fer_distrib 1 2 k) 0 ≠ 0 ∧
      loadVectorFrom 1 (fun k => (0 : ℚ) + fer_distrib 1 2 k) [Load.udl 2] =
        some (fun k =>
          (fun k => (0 : ℚ) + fer_distrib 1 2 k) k + (fun k => (0 : ℚ) + fer_distrib 1 2 k) k) := by
  refine ⟨rfl, by with_unfolding_all decide, ?_⟩
  exact (load_vector_not_idempotent 1 [Load.udl 2] (fun k => (0 : ℚ) + fer_distrib 1 2 k) 0
    rfl (by with_unfolding_all decide)).1

/-!
## Claim C7: the patch load reduces to the point load plus an O(d²) term
-/

/-- The explicit correction term: `fer_patch` minus the equivalent
centroid point load, divided by `d² = (stop - start)²`. -/
def patchCorrection (length w start stop : ℚ) : ℕ → ℚ := fun k =>
  let d := stop - start
  let a := start + d / 2
  let b := length - a
  match k with
  | 0 => w * d * (a - b) / (4 * length ^ 3)
  | 1 => -(w * d * (a - 2 * b) / (12 * length ^ 2))
  | 2 => w * d * (a - b) / (4 * length ^ 3)
  | 3 => w * d * (b - 2 * a) / (12 * length ^ 2)
  | _ => 0

/-- C7: for any element length `L ≠ 0`, the patch-load fixed-end
reaction vector equals the fixed-end reaction vector of the equivalent
point load `P = w·d` applied at the patch centroid `a = start + d/2`,
plus `d²` times an explicit correction term; the correction term
vanishes as `d → 0` with `w·d` held fixed, so the patch FER converges
to the point FER. -/
theorem fer_patch_point_limit (length w start stop : ℚ) (hL : length ≠ 0) (k : ℕ) :
    fer_patch length w start stop k =
      fer_point length (w * (stop - start)) (start + (stop - start) / 2) k
        + (stop - start) ^ 2 * patchCorrection length w start stop k := by
  rcases k with _ | _ | _ | _ | k
  · simp only [fer_patch, fer_point, patchCorrection]
    field_simp
    ring
  · simp only [fer_patch, fer_point, patchCorrection]
    field_simp
    ring
  · simp only [fer_patch, fer_point, patchCorrection]
    field_simp
    ring
  · simp only [fer_patch, fer_point, patchCorrection]
    field_simp
    ring
  · simp only [fer_patch, fer_point, patchCorrection]
    ring

/-- Witness for `fer_patch_point_limit` at a concrete input. -/
theorem fer_patch_point_limit_witness :
    ((1 : ℚ) ≠ 0) ∧
      fer_patch 1 1 0 1 0 =
        fer_point 1 (1 * (1 - 0)) (0 + (1 - 0) / 2) 0
          + (1 - 0) ^ 2 * patchCorrection 1 1 0 1 0 :=
  ⟨by norm_num, fer_patch_point_limit 1 1 0 1 (by norm_num) 0⟩

/-!
## Claim C8: support-vector length checking at `Beam` construction
-/

lemma foldlM_bc_isSome (supports : List ℚ) :
    ∀ (l : List ℕ) (KF : (ℕ → ℕ → ℚ) × (ℕ → ℚ)),
      ((l.foldlM (fun KF i => (supports.get? i).map (fun s => bcStep KF s i)) KF).isSome = true
        ↔ ∀ i ∈ l, i < supports.length) := by
  intro l
  induction l with
  | nil => intro KF; simp
  | cons a l ih =>
    intro KF
    rcases Nat.lt_or_ge a supports.length with ha | ha
    · have hstep :
        (a :: l).foldlM (fun KF i => (supports.get? i).map (fun s => bcStep KF s i)) KF =
          l.foldlM (fun KF i => (supports.get? i).map (fun s => bcStep KF s i))
            (bcStep KF (supports.get ⟨a, ha⟩) a) := by
        rw [List.foldlM_cons, List.get?_eq_get ha]
        rfl
      rw [hstep, ih]
      simp [ha]
    · have hstep :
        (a :: l).foldlM (fun KF i => (supports.get? i).map (fun s => bcStep KF s i)) KF =
          none := by
        rw [List.foldlM_cons, List.get?_eq_none.mpr ha]
        rfl
      rw [hstep]
      apply iff_of_false
      · simp
      · intro hall
        exact absurd (hall a (by simp)) (by omega)

/-- C8 (counterexample): a support vector longer than the global DOF
count is not rejected — construction proceeds (extra entries are
ignored by the `range(num_dof)` loop). -/
theorem beam_supports_longer_counterexample :
    (beamBC [⟨1, 1, 1, [], localStiffness 1 1 1, fun _ => 0⟩]
        [-1, -1, -1, -1, -1]).isSome = true ∧
      ([-1, -1, -1, -1, -1] : List ℚ).length ≠
        numDof [⟨1, 1, 1, [], localStiffness 1 1 1, fun _ => 0⟩] :=
  ⟨by decide, by decide⟩

/-- C8 (amended): `Beam` construction gets past the support loop (and
so reaches the solve) exactly when the support vector has at least
`2·(n+1)` entries: a shorter vector raises `IndexError` inside the
loop, before any displacement is produced, while a longer vector is
accepted with the extra entries ignored. -/
theorem beamBC_isSome_iff (elements : List Element) (supports : List ℚ) :
    (beamBC elements supports).isSome = true ↔ numDof elements ≤ supports.length := by
  unfold beamBC applyBC
  rw [foldlM_bc_isSome]
  constructor
  · intro h
    have h2 := h (numDof elements - 1) (by rw [List.mem_range]; unfold numDof; omega)
    unfold numDof at h2 ⊢
    omega
  · intro h i hi
    rw [List.mem_range] at hi
    omega

/-!
## Helper lemmas for the boundary-condition enforcement (claims C1, C2)
-/

/-- Row `i` and column `i` of the stiffness matrix are zero except a
unit diagonal entry, and the load entry is zero. -/
def RestrainedAt (i : ℕ) (KF : (ℕ → ℕ → ℚ) × (ℕ → ℚ)) : Prop :=
  KF.1 i i = 1 ∧ (∀ j, j ≠ i → KF.1 i j = 0 ∧ KF.1 j i = 0) ∧ KF.2 i = 0

lemma bcStep_restrains (KF : (ℕ → ℕ → ℚ) × (ℕ → ℚ)) (s : ℚ) (i : ℕ) (hs : s < 0) :
    RestrainedAt i (bcStep KF s i) := by
  unfold bcStep RestrainedAt
  rw [if_pos hs]
  refine ⟨by simp, fun j hj => ⟨?_, ?_⟩, by simp⟩
  · simp [hj]
  · simp [hj]

lemma bcStep_preserves (KF : (ℕ → ℕ → ℚ) × (ℕ → ℚ)) (s : ℚ) (i j : ℕ)
    (hne : j ≠ i) (h : RestrainedAt i KF) : RestrainedAt i (bcStep KF s j) := by
  obtain ⟨hKii, hKoff, hF⟩ := h
  unfold bcStep
  by_cases h1 : s < 0
  · rw [if_pos h1]
    refine ⟨?_, fun j' hj' => ⟨?_, ?_⟩, ?_⟩
    · simp [Ne.symm hne, hKii]
    · by_cases hj2 : j' = j
      · simp [hj2, Ne.symm hne]
      · simp [hj2, Ne.symm hne, (hKoff j' hj').1]
    · by_cases hj2 : j' = j
      · simp [hj2, Ne.symm hne]
      · simp [hj2, Ne.symm hne, (hKoff j' hj').2]
    · simp [Ne.symm hne, hF]
  · by_cases h2 : 0 < s
    · rw [if_neg h1, if_pos h2]
      refine ⟨?_, fun j' hj' => ⟨?_, ?_⟩, hF⟩
      · simp [Ne.symm hne, hKii]
      · simp [Ne.symm hne, (hKoff j' hj').1]
      · simp [Ne.symm hne, (hKoff j' hj').2]
    · rw [if_neg h1, if_neg h2]
      exact ⟨hKii, hKoff, hF⟩

lemma foldl_bcStep_preserves (g : ℕ → ℚ) (i : ℕ) :
    ∀ (l : List ℕ) (KF : (ℕ → ℕ → ℚ) × (ℕ → ℚ)), (∀ j ∈ l, j ≠ i) → RestrainedAt i KF →
      RestrainedAt i (l.foldl (fun KF j => bcStep KF (g j) j) KF) := by
  intro l
  induction l with
  | nil => intro KF _ h; exact h
  | cons a l ih =>
    intro KF hne h
    rw [List.foldl_cons]
    exact ih _ (fun j hj => hne j (by simp [hj])) (bcStep_preserves _ _ _ _ (hne a (by simp)) h)

lemma foldlM_bc_eq_foldl (supports : List ℚ) :
    ∀ (l : List ℕ) (KF : (ℕ → ℕ → ℚ) × (ℕ → ℚ)), (∀ i ∈ l, i < supports.length) →
      l.foldlM (fun KF i => (supports.get? i).map (fun s => bcStep KF s i)) KF =
        some (l.foldl (fun KF i => bcStep KF (supports.getD i 0) i) KF) := by
  intro l
  induction l with
  | nil => intro KF _; rfl
  | cons a l ih =>
    intro KF hlt
    have ha : a < supports.length := hlt a (by simp)
    have hget : supports.get? a = some (supports.getD a 0) := by
      rw [List.getD_eq_get?, List.get?_eq_get ha]
      rfl
    rw [List.foldlM_cons, hget]
    show l.foldlM (fun KF i => (supports.get? i).map (fun s => bcStep KF s i))
        (bcStep KF (supports.getD a 0) a) =
      some ((a :: l).foldl (fun KF i => bcStep KF (supports.getD i 0) i) KF)
    rw [ih _ (fun i hi => hlt i (by simp [hi])), List.foldl_cons]

lemma restrained_after (supports : List ℚ) (D i : ℕ) (s : ℚ)
    (KF₀ KF : (ℕ → ℕ → ℚ) × (ℕ → ℚ))
    (hlen : D ≤ supports.length) (hi : i < D)
    (hs : supports.get? i = some s) (hneg : s < 0)
    (hBC : applyBC supports D KF₀ = some KF) :
    RestrainedAt i KF := by
  unfold applyBC at hBC
  rw [foldlM_bc_eq_foldl supports (List.range D) KF₀
    (fun j hj => by rw [List.mem_range] at hj; omega)] at hBC
  have hKF := Option.some.inj hBC
  subst hKF
  have hgd : supports.getD i 0 = s := by
    rw [List.getD_eq_get?, hs]
    rfl
  have hD : D = (i + 1) + (D - (i + 1)) := by omega
  rw [hD, List.range_add, List.foldl_append, List.range_succ, List.foldl_append]
  apply foldl_bcStep_preserves
  · intro j hj
    rw [List.mem_map] at hj
    obtain ⟨x, _, hx⟩ := hj
    omega
  · rw [List.foldl_cons, List.foldl_nil, hgd]
    exact bcStep_restrains _ _ _ hneg

lemma sum_map_range (f : ℕ → ℚ) : ∀ n, ((List.range n).map f).sum = ∑ j ∈ Finset.range n, f j := by
  intro n
  induction n with
  | zero => simp
  | succ m ih =>
    rw [List.range_succ, List.map_append, List.sum_append, Finset.sum_range_succ, ih]
    simp

lemma restrained_dof_zero (D i : ℕ) (K : ℕ → ℕ → ℚ) (F d : ℕ → ℚ)
    (h : RestrainedAt i (K, F)) (hi : i < D) (hsol : isSolution D K F d) : d i = 0 := by
  have hrow := hsol i (List.mem_range.mpr hi)
  rw [sum_map_range] at hrow
  obtain ⟨hKii, hKoff, hF⟩ := h
  have hKii' : K i i = 1 := hKii
  have hF' : F i = 0 := hF
  rw [Finset.sum_eq_single_of_mem i (Finset.mem_range.mpr hi)
    (fun j _ hne => by
      have h0 : K i j = 0 := (hKoff j hne).1
      rw [h0, zero_mul])] at hrow
  rw [hKii', hF', one_mul] at hrow
  exact hrow

/-!
## Claim C1: a fully restrained DOF after construction
-/

/-- C1: for a beam whose support vector has exactly the global DOF
count of entries, every DOF `i` with `supports[i] < 0` ends up, after
`Beam.__init__`, with row `i` and column `i` of the global stiffness
matrix zero except `K[i,i] = 1`, the load entry `F[i] = 0`, and any
solution of the resulting system has `displacement[i] = 0`. -/
theorem beam_restrained_dof (elements : List Element) (supports : List ℚ)
    (K : ℕ → ℕ → ℚ) (F d : ℕ → ℚ) (i : ℕ) (s : ℚ)
    (hlen : supports.length = numDof elements)
    (hi : i < numDof elements)
    (hs : supports.get? i = some s) (hneg : s < 0)
    (hBC : beamBC elements supports = some (K, F))
    (hsol : isSolution (numDof elements) K F d) :
    K i i = 1 ∧ (∀ j, j ≠ i → K i j = 0 ∧ K j i = 0) ∧ F i = 0 ∧ d i = 0 := by
  have hres : RestrainedAt i (K, F) :=
    restrained_after supports (numDof elements) i s _ (K, F) (le_of_eq hlen.symm) hi hs hneg hBC
  obtain ⟨h1, h2, h3⟩ := hres
  exact ⟨h1, h2, h3, restrained_dof_zero (numDof elements) i K F d ⟨h1, h2, h3⟩ hi hsol⟩

/-- A one-element beam with unit properties and no loads. -/
def demoElement : Element := ⟨1, 1, 1, [], localStiffness 1 1 1, fun _ => 0⟩

/-- A fully restrained support vector for the one-element beam. -/
def demoSupports : List ℚ := [-1, -1, -1, -1]

/-- The stiffness/load pair produced for the demo beam. -/
def demoKF : (ℕ → ℕ → ℚ) × (ℕ → ℚ) :=
  (beamBC [demoElement] demoSupports).getD (fun _ _ => 0, fun _ => 0)

/-- Witness for `beam_restrained_dof` on the demo beam at DOF 0. -/
theorem beam_restrained_dof_witness :
    demoSupports.length = numDof [demoElement] ∧
      0 < numDof [demoElement] ∧
      demoSupports.get? 0 = some (-1) ∧
      ((-1 : ℚ) < 0) ∧
      beamBC [demoElement] demoSupports = some (demoKF.1, demoKF.2) ∧
      isSolution (numDof [demoElement]) demoKF.1 demoKF.2 (fun _ => 0) ∧
      (fun _ : ℕ => (0 : ℚ)) 0 = 0 := by
  refine ⟨rfl, by decide, rfl, by decide, rfl, by with_unfolding_all decide, ?_⟩
  exact (beam_restrained_dof [demoElement] demoSupports demoKF.1 demoKF.2 (fun _ => 0) 0 (-1)
    rfl (by decide) rfl (by decide) rfl (by with_unfolding_all decide)).2.2.2

/-!
## Claim C2: fixed-fixed single element under a UDL
-/

/-- The element built from `{length: 1, youngs_mod: 1,
moment_of_inertia: 1, loads: [udl 384]}`. -/
def c2El : Element :=
  (elementInit ⟨1, 1, 1, [Load.udl 384]⟩).getD ⟨0, 0, 0, [], fun _ _ => 0, fun _ => 0⟩

/-- The stiffness/load pair of the fixed-fixed one-element beam. -/
def c2KF : (ℕ → ℕ → ℚ) × (ℕ → ℚ) :=
  (beamBC [c2El] [-1, -1, -1, -1]).getD (fun _ _ => 0, fun _ => 0)

/-- C2 (counterexample): for the fixed-fixed single element of unit
length and properties carrying a UDL `w = 384`, the zero vector solves
the system (all four DOFs are restrained), and the interpolated
midspan displacement is `0`, while the classical value
`-w L^4 / (384 E I) = -1` is nonzero. -/
theorem fixed_fixed_udl_midspan_counterexample :
    elementInit ⟨1, 1, 1, [Load.udl 384]⟩ = some c2El ∧
      beamBC [c2El] [-1, -1, -1, -1] = some (c2KF.1, c2KF.2) ∧
      isSolution (numDof [c2El]) c2KF.1 c2KF.2 (fun _ => 0) ∧
      dispSample (fun _ => 0) 0 1 (1 / 2) = 0 ∧
      -(384 : ℚ) * 1 ^ 4 / (384 * 1 * 1) ≠ 0 := by
  refine ⟨rfl, rfl, by with_unfolding_all decide, by with_unfolding_all decide,
    by with_unfolding_all decide⟩

/-- C2 (amended): for a single element with a UDL and all four DOFs
fully restrained, every solution of the constructed system has zero
nodal displacements and rotations, so the Hermite-interpolated
displacement at midspan is `0`, not the classical `-w L^4/(384 E I)`
(the two agree only for `w = 0`). -/
theorem fixed_fixed_udl_midspan_zero (L E I w : ℚ) (el : Element)
    (K : ℕ → ℕ → ℚ) (F d : ℕ → ℚ)
    (_hel : elementInit ⟨L, E, I, [Load.udl w]⟩ = some el)
    (hBC : beamBC [el] [-1, -1, -1, -1] = some (K, F))
    (hsol : isSolution (numDof [el]) K F d) :
    dispSample d 0 L (L / 2) = 0 := by
  have hD : numDof [el] = 4 := rfl
  have hzero : ∀ i, i < 4 → d i = 0 := by
    intro i hi
    have hs : ([-1, -1, -1, -1] : List ℚ).get? i = some (-1) := by
      interval_cases i <;> rfl
    have hres : RestrainedAt i (K, F) :=
      restrained_after [-1, -1, -1, -1] (numDof [el]) i (-1) _ (K, F)
        (by rw [hD]; exact Nat.le_refl 4) (by omega) hs (by decide) hBC
    exact restrained_dof_zero (numDof [el]) i K F d hres (by omega) hsol
  have h0 := hzero 0 (by omega)
  have h1 := hzero 1 (by omega)
  have h2 := hzero 2 (by omega)
  have h3 := hzero 3 (by omega)
  unfold dispSample
  rw [show List.range 4 = [0, 1, 2, 3] from rfl]
  norm_num [h0, h1, h2, h3]

/-- Witness for `fixed_fixed_udl_midspan_zero` on the concrete
fixed-fixed beam. -/
theorem fixed_fixed_udl_midspan_zero_witness :
    elementInit ⟨1, 1, 1, [Load.udl 384]⟩ = some c2El ∧
      beamBC [c2El] [-1, -1, -1, -1] = some (c2KF.1, c2KF.2) ∧
      isSolution (numDof [c2El]) c2KF.1 c2KF.2 (fun _ => 0) ∧
      dispSample (fun _ => 0) 0 1 (1 / 2) = 0 := by
  refine ⟨rfl, rfl, by with_unfolding_all decide, ?_⟩
  exact fixed_fixed_udl_midspan_zero 1 1 1 384 c2El c2KF.1 c2KF.2 (fun _ => 0)
    rfl rfl (by with_unfolding_all decide)

/-!
## Helper lemmas for `Postprocessor.interp` (claims C4, C5, C6)
-/

/-- The list built by the `interp` loop after processing elements
`0, ..., n-1`: each iteration pops the last entry of the accumulated
list (for `i ≠ 0`) and appends element `i`'s samples. -/
def outList (contrib : ℕ → List ℚ) : ℕ → List ℚ
  | 0 => []
  | n + 1 => (outList contrib n).dropLast ++ contrib n

lemma outList_ne_nil (contrib : ℕ → List ℚ) (hne : ∀ j, contrib j ≠ []) :
    ∀ n, 1 ≤ n → outList contrib n ≠ [] := by
  intro n hn
  match n, hn with
  | n + 1, _ =>
    show (outList contrib n).dropLast ++ contrib n ≠ []
    simp [hne n]

lemma interpFold_succ (contrib : ℕ → List ℚ) (n : ℕ) :
    interpFold contrib (n + 1) =
      (interpFold contrib n) >>= fun points =>
        (if n ≠ 0 then popLast points else some points).map (fun ps => ps ++ contrib n) := by
  unfold interpFold
  rw [List.range_succ, List.foldlM_append]
  simp only [List.foldlM_cons, List.foldlM_nil, bind_pure]

lemma interpFold_eq_outList (contrib : ℕ → List ℚ) (hne : ∀ j, contrib j ≠ []) :
    ∀ n, interpFold contrib n = some (outList contrib n) := by
  intro n
  induction n with
  | zero => rfl
  | succ m ih =>
    rw [interpFold_succ, ih]
    have hpop : (if m ≠ 0 then popLast (outList contrib m) else some (outList contrib m)) =
        some ((outList contrib m).dropLast) := by
      by_cases hm : m = 0
      · subst hm
        rw [if_neg (by simp)]
        rfl
      · rw [if_pos hm]
        unfold popLast
        rw [if_neg (outList_ne_nil contrib hne m (by omega))]
    show (if m ≠ 0 then popLast (outList contrib m) else some (outList contrib m)).map
        (fun ps => ps ++ contrib m) = some (outList contrib (m + 1))
    rw [hpop]
    rfl

lemma linspace_length (L : ℚ) (n : ℕ) : (linspace L n).length = n := by
  unfold linspace
  split
  · simp
  · simp

lemma elemContribution_length (d : ℕ → ℚ) (i : ℕ) (L E I : ℚ) (np : ℕ) (action : Action)
    (hact : action ≠ Action.slope) :
    (elemContribution d i L E I np action).length = np := by
  cases action with
  | slope => exact absurd rfl hact
  | displacement => simp [elemContribution, linspace_length]
  | moment => simp [elemContribution, linspace_length]
  | shear => simp [elemContribution, linspace_length]

lemma outList_length (contrib : ℕ → List ℚ) (np : ℕ) (hnp : 1 ≤ np)
    (hlen : ∀ j, (contrib j).length = np) :
    ∀ n, 1 ≤ n → (outList contrib n).length = n * (np - 1) + 1 := by
  intro n
  induction n with
  | zero => intro h; omega
  | succ m ih =>
    intro _
    by_cases hm : m = 0
    · subst hm
      show ((outList contrib 0).dropLast ++ contrib 0).length = 1 * (np - 1) + 1
      show (([] : List ℚ).dropLast ++ contrib 0).length = 1 * (np - 1) + 1
      simp [hlen 0]
      omega
    · show ((outList contrib m).dropLast ++ contrib m).length = (m + 1) * (np - 1) + 1
      rw [List.length_append, List.length_dropLast, ih (by omega), hlen m, Nat.succ_mul]
      generalize m * (np - 1) = P
      omega

lemma outList_get? (contrib : ℕ → List ℚ) (np : ℕ) (hnp : 2 ≤ np)
    (hlen : ∀ j, (contrib j).length = np) :
    ∀ n i, i + 1 < n →
      (outList contrib n).get? ((i + 1) * (np - 1)) = (contrib (i + 1)).head? := by
  intro n
  induction n with
  | zero => intro i h; omega
  | succ m ih =>
    intro i hi
    show ((outList contrib m).dropLast ++ contrib m).get? ((i + 1) * (np - 1)) = _
    have hmlen : (outList contrib m).length = m * (np - 1) + 1 :=
      outList_length contrib np (by omega) hlen m (by omega)
    have hdropLen : (outList contrib m).dropLast.length = m * (np - 1) := by
      rw [List.length_dropLast, hmlen, Nat.add_sub_cancel]
    rcases Nat.lt_or_ge (i + 1) m with hlt | hge
    · have hidx : (i + 1) * (np - 1) < m * (np - 1) :=
        Nat.mul_lt_mul_of_pos_right hlt (by omega)
      rw [List.get?_append (by rw [hdropLen]; exact hidx)]
      rw [List.dropLast_eq_take, List.get?_take (by rw [hmlen, Nat.add_sub_cancel]; exact hidx)]
      exact ih i hlt
    · have heq : i + 1 = m := by omega
      rw [List.get?_append_right (by rw [hdropLen, heq])]
      rw [hdropLen, heq, Nat.sub_self, List.get?_zero]

/-!
## Claim C4: output length per field
-/

/-- C4 (code bug evaluation): the `slope` branch of `interp` computes
`phi` but never appends samples, so a one-element beam yields an empty
result (expected length `num_points = 2`), and a two-element beam hits
`points.pop(-1)` on an empty list (an `IndexError`). -/
theorem interp_slope_missing_extend :
    beamInterp [demoElement] (fun _ => 0) 2 Action.slope = some [] ∧
      ([] : List ℚ).length ≠ 2 + (1 - 1) * (2 - 1) ∧
      beamInterp [demoElement, demoElement] (fun _ => 0) 2 Action.slope = none := by
  refine ⟨rfl, by decide, rfl⟩

/-!
## Claim C5: which duplicate is dropped at shared boundaries
-/

/-- First element of the two-element claim-C5 beam: unit properties
with a downward UDL of magnitude 24. -/
def c5ElemA : Element :=
  ⟨1, 1, 1, [Load.udl (-24)], localStiffness 1 1 1, fun k => fer_distrib 1 (-24) k⟩

/-- Second element of the claim-C5 beam: unit properties, unloaded. -/
def c5ElemB : Element := ⟨1, 1, 1, [], localStiffness 1 1 1, fun _ => 0⟩

/-- The two-element claim-C5 beam. -/
def c5Elements : List Element := [c5ElemA, c5ElemB]

/-- Supports of the claim-C5 beam: all DOFs restrained except the
middle-node translation (global DOF 2). -/
def c5Supports : List ℚ := [-1, -1, 0, -1, -1, -1]

/-- The solved displacement vector of the claim-C5 beam: only the
middle-node translation is nonzero (`1/2`). -/
def c5d : ℕ → ℚ := fun i => if i = 2 then 1 / 2 else 0

/-- The stiffness/load pair of the claim-C5 beam. -/
def c5KF : (ℕ → ℕ → ℚ) × (ℕ → ℚ) :=
  (beamBC c5Elements c5Supports).getD (fun _ _ => 0, fun _ => 0)

/-- C5 (counterexample): on the solved two-element beam, the `shear`
samples with `num_points = 2` are `[-6, 6, 6]`: the value emitted at
the shared boundary (index 1) is `6`, element 1's sample at its start
point, not element 0's end-point sample `-6` — `interp` pops element
0's end sample and keeps the duplicate at the start of element 1. -/
theorem interp_boundary_counterexample :
    beamBC c5Elements c5Supports = some (c5KF.1, c5KF.2) ∧
      isSolution (numDof c5Elements) c5KF.1 c5KF.2 c5d ∧
      beamInterp c5Elements c5d 2 Action.shear = some [-6, 6, 6] ∧
      ([-6, 6, 6] : List ℚ).get? ((0 + 1) * (2 - 1)) = some 6 ∧
      (elemContribution c5d 0 1 1 1 2 Action.shear).getLast? = some (-6) ∧
      ((6 : ℚ) ≠ -6) := by
  refine ⟨rfl, by with_unfolding_all decide, by with_unfolding_all decide,
    by with_unfolding_all decide, by with_unfolding_all decide, by with_unfolding_all decide⟩

/-- C5 (amended): for every solved beam and every field except
`slope`, the value emitted at the boundary between elements `i` and
`i+1` (index `(i+1)·(num_points-1)` of the output) is element `i+1`'s
sample at its start point: the duplicate dropped by `points.pop(-1)`
is the end sample of the earlier element, not the start sample of the
later one.  (For the `displacement` field the two coincide; for
`moment` and `shear` they differ in general, and for `slope` the loop
errors out on multi-element beams.) -/
theorem interp_boundary_from_next_element (elements : List Element) (supports : List ℚ)
    (K : ℕ → ℕ → ℚ) (F d : ℕ → ℚ) (np i : ℕ) (action : Action)
    (_hBC : beamBC elements supports = some (K, F))
    (_hsol : isSolution (numDof elements) K F d)
    (hact : action ≠ Action.slope) (hnp : 2 ≤ np) (hi : i + 1 < elements.length) :
    ∃ out, beamInterp elements d np action = some out ∧
      out.get? ((i + 1) * (np - 1)) =
        (elemContribution d (i + 1) ((elements.map Element.length).getD (i + 1) 0)
          ((elements.map Element.E).getD (i + 1) 0)
          ((elements.map Element.I).getD (i + 1) 0) np action).head? := by
  have hclen : ∀ j, (elemContribution d j ((elements.map Element.length).getD j 0)
      ((elements.map Element.E).getD j 0) ((elements.map Element.I).getD j 0) np action).length
        = np :=
    fun j => elemContribution_length d j _ _ _ np action hact
  have hne : ∀ j, elemContribution d j ((elements.map Element.length).getD j 0)
      ((elements.map Element.E).getD j 0) ((elements.map Element.I).getD j 0) np action ≠ [] :=
    fun j => List.length_pos.mp (by rw [hclen j]; omega)
  have hfold : beamInterp elements d np action =
      some (outList (fun j => elemContribution d j ((elements.map Element.length).getD j 0)
        ((elements.map Element.E).getD j 0) ((elements.map Element.I).getD j 0) np action)
        elements.length) := by
    unfold beamInterp interp
    rw [List.length_map]
    exact interpFold_eq_outList _ hne elements.length
  exact ⟨_, hfold, outList_get? _ np hnp hclen elements.length i hi⟩

/-- Witness for `interp_boundary_from_next_element` on the solved
two-element beam. -/
theorem interp_boundary_from_next_element_witness :
    beamBC c5Elements c5Supports = some (c5KF.1, c5KF.2) ∧
      isSolution (numDof c5Elements) c5KF.1 c5KF.2 c5d ∧
      (Action.shear ≠ Action.slope) ∧ 2 ≤ 2 ∧ 0 + 1 < c5Elements.length ∧
      ∃ out, beamInterp c5Elements c5d 2 Action.shear = some out ∧
        out.get? ((0 + 1) * (2 - 1)) =
          (elemContribution c5d (0 + 1) ((c5Elements.map Element.length).getD (0 + 1) 0)
            ((c5Elements.map Element.E).getD (0 + 1) 0)
            ((c5Elements.map Element.I).getD (0 + 1) 0) 2 Action.shear).head? := by
  refine ⟨rfl, by with_unfolding_all decide, by decide, by decide, by decide, ?_⟩
  exact interp_boundary_from_next_element c5Elements c5Supports c5KF.1 c5KF.2 c5d 2 0
    Action.shear rfl (by with_unfolding_all decide) (by decide) (by decide) (by decide)

/-!
## Claim C6: displacement samples at element endpoints
-/

/-- C6: for every solved beam, the first and last displacement samples
of element `i` (taken at `x = 0` and `x = length`) equal the solved
nodal translations `displacement[2i]` and `displacement[2i+2]`. -/
theorem interp_displacement_endpoints (elements : List Element) (supports : List ℚ)
    (K : ℕ → ℕ → ℚ) (F d : ℕ → ℚ) (np i : ℕ) (el : Element)
    (_hBC : beamBC elements supports = some (K, F))
    (_hsol : isSolution (numDof elements) K F d)
    (_hel : elements.get? i = some el) (hL : el.length ≠ 0) (hnp : 2 ≤ np) :
    (elemContribution d i el.length el.E el.I np Action.displacement).head? =
        some (d (2 * i)) ∧
      (elemContribution d i el.length el.E el.I np Action.displacement).getLast? =
        some (d (2 * i + 2)) := by
  obtain ⟨m, hm⟩ : ∃ m, np = m + 2 := ⟨np - 2, by omega⟩
  subst hm
  constructor
  · show ((linspace el.length (m + 2)).map
      (fun x => dispSample d i el.length x)).head? = some (d (2 * i))
    unfold linspace
    rw [if_neg (by omega)]
    rw [List.head?_map, List.head?_map, List.range_succ_eq_map]
    simp only [List.head?_cons, Option.map_some']
    have hx0 : el.length * ((0 : ℕ) : ℚ) / (((m + 2 : ℕ) : ℚ) - 1) = 0 := by
      push_cast
      ring
    rw [hx0]
    unfold dispSample
    rw [show List.range 4 = [0, 1, 2, 3] from rfl]
    norm_num [phi_displacment]
  · show ((linspace el.length (m + 2)).map
      (fun x => dispSample d i el.length x)).getLast? = some (d (2 * i + 2))
    unfold linspace
    rw [if_neg (by omega)]
    rw [List.range_succ, List.map_append, List.map_append]
    simp only [List.map_cons, List.map_nil]
    rw [List.getLast?_concat]
    have hx : el.length * ((m + 1 : ℕ) : ℚ) / (((m + 2 : ℕ) : ℚ) - 1) = el.length := by
      push_cast
      rw [show ((m : ℚ) + 2 - 1) = (m : ℚ) + 1 by ring]
      rw [mul_div_assoc, div_self (by positivity), mul_one]
    rw [hx]
    unfold dispSample
    rw [show List.range 4 = [0, 1, 2, 3] from rfl]
    rw [div_self hL]
    norm_num [phi_displacment]

/-- Witness for `interp_displacement_endpoints` on the demo beam. -/
theorem interp_displacement_endpoints_witness :
    beamBC [demoElement] demoSupports = some (demoKF.1, demoKF.2) ∧
      isSolution (numDof [demoElement]) demoKF.1 demoKF.2 (fun _ => 0) ∧
      [demoElement].get? 0 = some demoElement ∧
      demoElement.length ≠ 0 ∧ 2 ≤ 2 ∧
      (elemContribution (fun _ => 0) 0 demoElement.length demoElement.E demoElement.I 2
          Action.displacement).head? = some ((fun _ : ℕ => (0 : ℚ)) (2 * 0)) ∧
      (elemContribution (fun _ => 0) 0 demoElement.length demoElement.E demoElement.I 2
          Action.displacement).getLast? = some ((fun _ : ℕ => (0 : ℚ)) (2 * 0 + 2)) := by
  refine ⟨rfl, by with_unfolding_all decide, rfl, by with_unfolding_all decide, by decide, ?_, ?_⟩
  · exact (interp_displacement_endpoints [demoElement] demoSupports demoKF.1 demoKF.2
      (fun _ => 0) 2 0 demoElement rfl (by with_unfolding_all decide) rfl
      (by with_unfolding_all decide) (by decide)).1
  · exact (interp_displacement_endpoints [demoElement] demoSupports demoKF.1 demoKF.2
      (fun _ => 0) 2 0 demoElement rfl (by with_unfolding_all decide) rfl
      (by with_unfolding_all decide) (by decide)).2

end Feebb
